import Mathlib

/-!
Shallow embedding of the holder-aggregation and HHI-computation pipeline of
`SolanaService` (backend `src/services/SolanaService.ts`), covering
`getAllTokenHolders`, `calculateHHI`, `emptyResult` and `getConcentrationLevel`.

Token amounts travel as decimal strings and are converted with JavaScript's
`BigInt`; we model that conversion on digit strings (`parseBigInt`), the
paginated fetch loop as a fuel-indexed recursion over an abstract page oracle,
and `calculateHHI` as a total function into `Except String HHIResult`
(`Except.error` standing for a thrown exception).
-/

namespace SolScore

/-- A raw token account as decoded from one page of the upstream
`getProgramAccounts` response: the fields
`acc.account.data.parsed.info.owner` and
`acc.account.data.parsed.info.tokenAmount.amount` that the service reads. -/
structure RawAccount where
  owner : String
  amount : String
deriving Repr, DecidableEq

/-- A holder record as produced by `getAllTokenHolders`:
`{ account: owner, amount: tokenAmount.amount }`. -/
structure HolderRec where
  account : String
  amount : String
deriving Repr, DecidableEq

/-- The `EXCLUDED_ADDRESSES` set of `SolanaService` (burn address and a
common program address), modelled as a list consulted by membership. -/
def EXCLUDED_ADDRESSES : List String :=
  ["11111111111111111111111111111111",
   "1nc1nerator11111111111111111111111111111111"]

/-- JavaScript `BigInt(s)` restricted to the strings relevant here: a string
of decimal digits (the empty string converting to `0`, as in JavaScript)
converts to its value; any other string throws, modelled as `none`.
(The hex/sign/whitespace forms `BigInt` also accepts never arise for
`tokenAmount.amount` values and are out of this model.) -/
def parseBigInt (s : String) : Option Nat :=
  if s.data.all (fun c => c.isDigit) then
    some (s.data.foldl (fun n c => n * 10 + (c.toNat - 48)) 0)
  else
    none

/-- The per-page filter-and-map of `getAllTokenHolders`: keep accounts whose
owner is not in `EXCLUDED_ADDRESSES` and whose amount string is not the
literal `'0'`, and project each to `{ account: owner, amount }`. -/
def filterPage (v : List RawAccount) : List HolderRec :=
  (v.filter (fun a =>
      decide (a.owner ∉ EXCLUDED_ADDRESSES) && decide (a.amount ≠ "0"))).map
    (fun a => { account := a.owner, amount := a.amount })

/-- Result of the paginated fetch: the accumulated holder records together
with the list of page requests issued, each recorded as
`(page index, limit)`. -/
structure FetchResult where
  holders : List HolderRec
  requests : List (Nat × Nat)
deriving Repr, DecidableEq

/-- One upstream page oracle: for each page index, either the decoded
`response.value` account list (`Except.ok`) or a transport/decode failure
(`Except.error`, standing for a thrown/rejected RPC call). -/
abbrev PageOracle := Nat → Except Unit (List RawAccount)

/-- The `while (hasMore)` loop of `getAllTokenHolders`, with explicit fuel
(the JavaScript loop has no bound; every theorem below carries enough fuel).
Per iteration: request page `page` with the given `pageSize`; on failure stop
with what was accumulated (fail gracefully); on an empty account list stop;
otherwise filter the page, append the records, and stop if the page produced
fewer post-filter records than `pageSize`, else continue with `page + 1`. -/
def getAllTokenHoldersAux (pages : PageOracle) (pageSize : Nat) :
    Nat → Nat → List HolderRec → List (Nat × Nat) → FetchResult
  | 0, _, acc, reqs => ⟨acc, reqs⟩
  | fuel + 1, page, acc, reqs =>
    let reqs' := reqs ++ [(page, pageSize)]
    match pages page with
    | Except.error _ => ⟨acc, reqs'⟩
    | Except.ok v =>
      if v.length = 0 then ⟨acc, reqs'⟩
      else
        let holders := filterPage v
        let acc' := acc ++ holders
        if holders.length < pageSize then ⟨acc', reqs'⟩
        else getAllTokenHoldersAux pages pageSize fuel (page + 1) acc' reqs'

/-- `getAllTokenHolders(mint, pageSize = 1000)`: run the pagination loop from
page `0` with empty accumulators. -/
def getAllTokenHolders (pages : PageOracle) (pageSize : Nat := 1000)
    (fuel : Nat) : FetchResult :=
  getAllTokenHoldersAux pages pageSize fuel 0 [] []

/-- One entry of `topHolders`: account, raw amount string, and the
percentage. `percentage` is modelled as a rational: the JavaScript value is
`Number((amount * 1000000n) / totalSupply) / 10000`, where the quotient is at
most `10 ^ 6` (each amount is at most the total), so the `Number` conversion
is exact and division by `10000` preserves order and equality of the
quotients; the rational `q / 10000` carries the same information. -/
structure TopHolder where
  account : String
  amount : String
  percentage : ℚ
deriving Repr, DecidableEq

/-- The result object of `calculateHHI`. `hhi` is `Number(hhiSum)` with
`hhiSum` a sum of truncated nonnegative divisions, hence a natural number. -/
structure HHIResult where
  hhi : Nat
  totalSupply : String
  holderCount : Nat
  topHolders : List TopHolder
  concentrationLevel : String
deriving Repr, DecidableEq

/-- The `emptyResult()` sentinel of `SolanaService`. -/
def emptyResult : HHIResult :=
  { hhi := 0
    totalSupply := "0"
    holderCount := 0
    topHolders := []
    concentrationLevel := "No active holders" }

/-- `getConcentrationLevel(hhi)`: qualitative label by thresholds. -/
def getConcentrationLevel (hhi : Nat) : String :=
  if hhi ≥ 5000 then "Extreme concentration (risk of manipulation)"
  else if hhi ≥ 2500 then "High concentration"
  else if hhi ≥ 1500 then "Moderate concentration"
  else "Decentralized"

/-- The message with which `BigInt(s)` rejects a non-numeric string. -/
def convertFailMsg (s : String) : String :=
  "Cannot convert " ++ s ++ " to a BigInt"

/-- The left fold of
`holders.reduce((sum, holder) => sum + BigInt(holder.amount), BigInt(0))`
with accumulator `s`: the first failing `BigInt` conversion throws. -/
def totalSupplyFold (s : Nat) : List HolderRec → Except String Nat
  | [] => Except.ok s
  | h :: l =>
    match parseBigInt h.amount with
    | some n => totalSupplyFold (s + n) l
    | none => Except.error (convertFailMsg h.amount)

/-- `holders.reduce((sum, holder) => sum + BigInt(holder.amount), BigInt(0))`:
left fold accumulating the total supply, propagating the first `BigInt`
conversion failure as a thrown error. -/
def totalSupplyOf (holders : List HolderRec) : Except String Nat :=
  totalSupplyFold 0 holders

/-- All amounts of a holder list parsed by `BigInt`, in order;
`none` iff some amount string fails to convert. -/
def parsedAmounts : List HolderRec → Option (List Nat)
  | [] => some []
  | h :: l =>
    match parseBigInt h.amount, parsedAmounts l with
    | some a, some as => some (a :: as)
    | _, _ => none

/-- The per-holder percentage of `calculateHHI`:
`Number((amount * 1000000n) / totalSupply) / 10000` as an exact rational
(see `TopHolder.percentage`); the inner division is `BigInt` (truncated)
division. -/
def percentageOf (a total : Nat) : ℚ :=
  ((a * 1000000 / total : Nat) : ℚ) / 10000

/-- Rounding of a rational to 4 decimal places (round half away from ties
to the nearest multiple of `1 / 10000`); this is the `round4` operation the
specification uses to describe the percentage, stated independently of the
code so the two can be compared. -/
def round4 (x : ℚ) : ℚ :=
  ((round (x * 10000) : ℤ) : ℚ) / 10000

/-- The per-holder HHI contribution of `calculateHHI`:
`(amount * amount * 10000n) / (totalSupply * totalSupply)` with `BigInt`
(truncated) division. -/
def squaredTerm (a total : Nat) : Nat :=
  a * a * 10000 / (total * total)

/-- The `holdersWithPercentage` array of `calculateHHI`. The second
`BigInt(holder.amount)` conversion in the source cannot fail on any path
where the preceding `reduce` succeeded, so it is read with default `0`. -/
def holdersWithPercentage (holders : List HolderRec) (total : Nat) :
    List TopHolder :=
  holders.map (fun h =>
    { account := h.account
      amount := h.amount
      percentage := percentageOf ((parseBigInt h.amount).getD 0) total })

/-- The descending-by-percentage order used by
`sort((a, b) => b.percentage - a.percentage)`: `a` may stay before `b` iff
`b.percentage ≤ a.percentage`. -/
def pctGE (a b : TopHolder) : Prop :=
  b.percentage ≤ a.percentage

instance : DecidableRel pctGE := fun a b =>
  inferInstanceAs (Decidable (b.percentage ≤ a.percentage))

instance : IsTotal TopHolder pctGE := ⟨fun a b => le_total b.percentage a.percentage⟩

instance : IsTrans TopHolder pctGE := ⟨fun _ _ _ h h' => le_trans h' h⟩

/-- `holdersWithPercentage.sort((a, b) => b.percentage - a.percentage)`:
JavaScript `Array.prototype.sort` is stable (ES2019) and this comparator
orders by descending `percentage`; embedded as the stable insertion sort
with respect to `pctGE`. -/
def sortByPctDesc (l : List TopHolder) : List TopHolder :=
  List.insertionSort pctGE l

/-- `calculateHHI`, from the already fetched holder list onward
(steps 2 to 4 of the source; step 1, the fetch, is `getAllTokenHolders`
and never throws). `Except.error` is the rethrown
`HHI calculation failed: ...` exception of the surrounding try/catch. -/
def calculateHHI (holders : List HolderRec) : Except String HHIResult :=
  if holders.length = 0 then Except.ok emptyResult
  else
    match totalSupplyOf holders with
    | Except.error e => Except.error ("HHI calculation failed: " ++ e)
    | Except.ok totalSupply =>
      if totalSupply = 0 then Except.ok emptyResult
      else
        let hw := holdersWithPercentage holders totalSupply
        let hhi := holders.foldl
          (fun s h => s + squaredTerm ((parseBigInt h.amount).getD 0) totalSupply)
          0
        let sortedHolders := sortByPctDesc hw
        Except.ok
          { hhi := hhi
            totalSupply := Nat.repr totalSupply
            holderCount := holders.length
            topHolders := sortedHolders.take 10
            concentrationLevel := getConcentrationLevel hhi }

/-! ### Aggregation lemmas -/

theorem totalSupplyFold_of_parsed :
    ∀ (l : List HolderRec) (as : List Nat), parsedAmounts l = some as →
      ∀ s : Nat, totalSupplyFold s l = Except.ok (s + as.sum)
  | [], as, hp, s => by
    simp only [parsedAmounts] at hp
    cases hp
    simp [totalSupplyFold]
  | h :: l, as, hp, s => by
    simp only [parsedAmounts] at hp
    cases hpa : parseBigInt h.amount with
    | none => rw [hpa] at hp; exact absurd hp (by simp)
    | some a =>
      rw [hpa] at hp
      cases hpl : parsedAmounts l with
      | none => rw [hpl] at hp; exact absurd hp (by simp)
      | some bs =>
        rw [hpl] at hp
        simp only [Option.some.injEq] at hp
        subst hp
        simp only [totalSupplyFold, hpa]
        rw [totalSupplyFold_of_parsed l bs hpl (s + a)]
        simp [List.sum_cons, Nat.add_assoc]

theorem totalSupplyFold_of_unparsed :
    ∀ (l : List HolderRec), parsedAmounts l = none →
      ∃ h ∈ l, parseBigInt h.amount = none ∧
        ∀ s : Nat, totalSupplyFold s l = Except.error (convertFailMsg h.amount)
  | [], hp => by simp [parsedAmounts] at hp
  | h :: l, hp => by
    simp only [parsedAmounts] at hp
    cases hpa : parseBigInt h.amount with
    | none =>
      exact ⟨h, List.mem_cons_self h l, hpa, fun s => by
        simp [totalSupplyFold, hpa]⟩
    | some a =>
      rw [hpa] at hp
      cases hpl : parsedAmounts l with
      | some bs => rw [hpl] at hp; exact absurd hp (by simp)
      | none =>
        obtain ⟨h', hm, hn, hf⟩ := totalSupplyFold_of_unparsed l hpl
        exact ⟨h', List.mem_cons_of_mem h hm, hn, fun s => by
          simp [totalSupplyFold, hpa, hf]⟩

theorem parsedAmounts_length :
    ∀ (l : List HolderRec) (as : List Nat), parsedAmounts l = some as →
      as.length = l.length
  | [], as, hp => by
    simp only [parsedAmounts, Option.some.injEq] at hp; simp [← hp]
  | h :: l, as, hp => by
    simp only [parsedAmounts] at hp
    cases hpa : parseBigInt h.amount with
    | none => rw [hpa] at hp; exact absurd hp (by simp)
    | some a =>
      rw [hpa] at hp
      cases hpl : parsedAmounts l with
      | none => rw [hpl] at hp; exact absurd hp (by simp)
      | some bs =>
        rw [hpl] at hp
        simp only [Option.some.injEq] at hp
        subst hp
        simp [parsedAmounts_length l bs hpl]

theorem parsedAmounts_none_of_mem {l : List HolderRec} {h : HolderRec}
    (hm : h ∈ l) (hn : parseBigInt h.amount = none) :
    parsedAmounts l = none := by
  induction l with
  | nil => cases hm
  | cons h' l ih =>
    rcases List.mem_cons.1 hm with rfl | hm'
    · simp [parsedAmounts, hn]
    · cases hpa : parseBigInt h'.amount with
      | none => simp [parsedAmounts, hpa]
      | some a => simp [parsedAmounts, hpa, ih hm']

theorem hhiFold_of_parsed (T : Nat) :
    ∀ (l : List HolderRec) (as : List Nat), parsedAmounts l = some as →
      ∀ s : Nat,
        l.foldl (fun s h => s + squaredTerm ((parseBigInt h.amount).getD 0) T) s =
          s + (as.map (fun a => squaredTerm a T)).sum
  | [], as, hp, s => by
    simp only [parsedAmounts, Option.some.injEq] at hp
    simp [← hp]
  | h :: l, as, hp, s => by
    simp only [parsedAmounts] at hp
    cases hpa : parseBigInt h.amount with
    | none => rw [hpa] at hp; exact absurd hp (by simp)
    | some a =>
      rw [hpa] at hp
      cases hpl : parsedAmounts l with
      | none => rw [hpl] at hp; exact absurd hp (by simp)
      | some bs =>
        rw [hpl] at hp
        simp only [Option.some.injEq] at hp
        subst hp
        simp only [List.foldl_cons, hpa, Option.getD_some]
        rw [hhiFold_of_parsed T l bs hpl]
        simp [List.sum_cons, Nat.add_assoc]

/-- Symbolic evaluation of `calculateHHI` on a holder list whose amounts all
convert, with positive total: the returned record, field by field. -/
theorem calculateHHI_ok {holders : List HolderRec} {as : List Nat}
    (hp : parsedAmounts holders = some as) (hpos : 0 < as.sum) :
    calculateHHI holders = Except.ok
      { hhi := (as.map (fun a => squaredTerm a as.sum)).sum
        totalSupply := Nat.repr as.sum
        holderCount := holders.length
        topHolders := (sortByPctDesc (holdersWithPercentage holders as.sum)).take 10
        concentrationLevel :=
          getConcentrationLevel ((as.map (fun a => squaredTerm a as.sum)).sum) } := by
  have hne : holders ≠ [] := by
    intro hnil
    subst hnil
    simp only [parsedAmounts, Option.some.injEq] at hp
    rw [← hp] at hpos
    simp at hpos
  have hlen : ¬ holders.length = 0 := by
    simpa [List.length_eq_zero] using hne
  have htot : totalSupplyOf holders = Except.ok as.sum := by
    simpa using totalSupplyFold_of_parsed holders as hp 0
  simp only [calculateHHI, hlen, if_false, htot, Nat.pos_iff_ne_zero.1 hpos, if_false]
  rw [hhiFold_of_parsed as.sum holders as hp 0]
  simp

/-- Symbolic evaluation of `calculateHHI` when some amount fails to convert:
the exception surfaces as `HHI calculation failed: ...`. -/
theorem calculateHHI_error {holders : List HolderRec} {h : HolderRec}
    (hm : h ∈ holders) (hn : parseBigInt h.amount = none) :
    ∃ h' ∈ holders, parseBigInt h'.amount = none ∧
      calculateHHI holders =
        Except.error ("HHI calculation failed: " ++ convertFailMsg h'.amount) := by
  have hnone : parsedAmounts holders = none := parsedAmounts_none_of_mem hm hn
  obtain ⟨h', hm', hn', hf⟩ := totalSupplyFold_of_unparsed holders hnone
  refine ⟨h', hm', hn', ?_⟩
  have hlen : ¬ holders.length = 0 := by
    intro h0
    rw [List.length_eq_zero] at h0
    subst h0
    cases hm
  have htot : totalSupplyOf holders = Except.error (convertFailMsg h'.amount) := hf 0
  simp [calculateHHI, hlen, htot]

/-! ### Pagination lemmas -/

/-- Membership characterization for the per-page filter. -/
theorem mem_filterPage {h : HolderRec} {v : List RawAccount} :
    h ∈ filterPage v ↔
      ∃ a ∈ v, a.owner ∉ EXCLUDED_ADDRESSES ∧ a.amount ≠ "0" ∧
        h = { account := a.owner, amount := a.amount } := by
  simp only [filterPage, List.mem_map, List.mem_filter, Bool.and_eq_true,
    decide_eq_true_eq]
  constructor
  · rintro ⟨a, ⟨hav, hex, hz⟩, rfl⟩
    exact ⟨a, hav, hex, hz, rfl⟩
  · rintro ⟨a, hav, hex, hz, rfl⟩
    exact ⟨a, ⟨hav, hex, hz⟩, rfl⟩

/-- Every holder accumulated by the fetch loop is either already in the
accumulator or comes from the filtered content of some successful page. -/
theorem mem_getAllTokenHoldersAux (pages : PageOracle) (pageSize : Nat) :
    ∀ (fuel page : Nat) (acc : List HolderRec) (reqs : List (Nat × Nat))
      (h : HolderRec),
      h ∈ (getAllTokenHoldersAux pages pageSize fuel page acc reqs).holders →
      h ∈ acc ∨ ∃ p v, pages p = Except.ok v ∧ h ∈ filterPage v
  | 0, _, acc, reqs, h, hm => Or.inl hm
  | fuel + 1, page, acc, reqs, h, hm => by
    simp only [getAllTokenHoldersAux] at hm
    split at hm
    case h_1 e hpg => exact Or.inl hm
    case h_2 v hpg =>
      split at hm
      · exact Or.inl hm
      · split at hm
        · rcases List.mem_append.1 hm with hacc | hpage
          · exact Or.inl hacc
          · exact Or.inr ⟨page, v, hpg, hpage⟩
        · rcases mem_getAllTokenHoldersAux pages pageSize fuel (page + 1)
              (acc ++ filterPage v) (reqs ++ [(page, pageSize)]) h hm with
            hacc | hrest
          · rcases List.mem_append.1 hacc with hacc' | hpage
            · exact Or.inl hacc'
            · exact Or.inr ⟨page, v, hpg, hpage⟩
          · exact Or.inr hrest

theorem mem_getAllTokenHolders {pages : PageOracle} {pageSize fuel : Nat}
    {h : HolderRec}
    (hm : h ∈ (getAllTokenHolders pages pageSize fuel).holders) :
    ∃ p v, pages p = Except.ok v ∧ h ∈ filterPage v := by
  rcases mem_getAllTokenHoldersAux pages pageSize fuel 0 [] [] h hm with hacc | hok
  · cases hacc
  · exact hok

/-- The filtered records a page contributes to the accumulated result:
nothing on a failed or empty page, its post-filter records otherwise. -/
def pageContribution (pages : PageOracle) (p : Nat) : List HolderRec :=
  match pages p with
  | Except.error _ => []
  | Except.ok v => if v.length = 0 then [] else filterPage v

/-- The loop asks for another page after page `p` exactly when page `p`
succeeds, is non-empty, and yields at least `pageSize` post-filter records. -/
def continuesAt (pages : PageOracle) (pageSize p : Nat) : Prop :=
  ∃ v, pages p = Except.ok v ∧ v.length ≠ 0 ∧ pageSize ≤ (filterPage v).length

/-- Full characterization of the fetch loop: if pages `start, ..., start+n-1`
keep the loop going and page `start+n` stops it, then (given fuel) the loop
returns the accumulated filtered contributions of pages `start..start+n` and
has issued exactly the `n+1` requests `(start, pageSize) .. (start+n,
pageSize)`, in increasing page order. -/
theorem getAllTokenHoldersAux_char (pages : PageOracle) (pageSize : Nat) :
    ∀ (n fuel start : Nat) (acc : List HolderRec) (reqs : List (Nat × Nat)),
      (∀ k, k < n → continuesAt pages pageSize (start + k)) →
      ¬ continuesAt pages pageSize (start + n) →
      n < fuel →
      getAllTokenHoldersAux pages pageSize fuel start acc reqs =
        ⟨acc ++ ((List.range (n + 1)).map
            (fun i => pageContribution pages (start + i))).flatten,
         reqs ++ (List.range (n + 1)).map (fun i => (start + i, pageSize))⟩ := by
  intro n
  induction n with
  | zero =>
    intro fuel start acc reqs _ hstop hfuel
    match fuel, hfuel with
    | fuel + 1, _ =>
      have hr1 : List.range 1 = [0] := rfl
      simp only [getAllTokenHoldersAux]
      simp only [Nat.add_zero] at hstop
      simp only [hr1, List.map_cons, List.map_nil, List.flatten_cons,
        List.flatten_nil, List.append_nil, Nat.add_zero]
      cases hpg : pages start with
      | error e => simp [pageContribution, hpg]
      | ok v =>
        by_cases hv : v.length = 0
        · have hvnil : v = [] := List.length_eq_zero.1 hv
          subst hvnil
          simp [hpg, pageContribution, filterPage]
        · have hshort : (filterPage v).length < pageSize := by
            by_contra hge
            exact hstop ⟨v, hpg, hv, Nat.le_of_not_lt hge⟩
          simp [hpg, hv, hshort, pageContribution]
  | succ n ih =>
    intro fuel start acc reqs hcont hstop hfuel
    match fuel, hfuel with
    | fuel + 1, hfuel =>
      obtain ⟨v, hpg, hv, hfull⟩ := hcont 0 (Nat.succ_pos n)
      rw [Nat.add_zero] at hpg
      simp only [getAllTokenHoldersAux, hpg, hv, if_false]
      rw [if_neg (Nat.not_lt.2 hfull)]
      have hcont' : ∀ k, k < n → continuesAt pages pageSize (start + 1 + k) := by
        intro k hk
        have := hcont (k + 1) (Nat.succ_lt_succ hk)
        rwa [show start + (k + 1) = start + 1 + k by omega] at this
      have hstop' : ¬ continuesAt pages pageSize (start + 1 + n) := by
        rwa [show start + 1 + n = start + (n + 1) by omega]
      rw [ih fuel (start + 1) (acc ++ filterPage v) (reqs ++ [(start, pageSize)])
        hcont' hstop' (Nat.lt_of_succ_lt_succ hfuel)]
      have hcontrib : pageContribution pages start = filterPage v := by
        simp [pageContribution, hpg, hv]
      simp only [FetchResult.mk.injEq]
      rw [List.range_succ_eq_map (n + 1)]
      simp only [List.map_cons, List.map_map, List.flatten_cons, Nat.add_zero,
        hcontrib, List.append_assoc, Function.comp]
      constructor
      · congr 1
        exact congrArg (fun t => filterPage v ++ t)
          (congrArg List.flatten (List.map_congr_left (fun i _ => by
            simp only [Function.comp_apply]
            congr 1
            omega)))
      · rw [List.singleton_append]
        congr 1
        exact congrArg (fun t => (start, pageSize) :: t)
          (List.map_congr_left (fun i _ => by
            simp only [Function.comp_apply]
            rw [show start + 1 + i = start + (i + 1) by omega]))

/-- `getAllTokenHoldersAux_char` instantiated at the loop's entry state. -/
theorem getAllTokenHolders_char (pages : PageOracle) (pageSize n fuel : Nat)
    (hcont : ∀ k, k < n → continuesAt pages pageSize k)
    (hstop : ¬ continuesAt pages pageSize n) (hfuel : n < fuel) :
    getAllTokenHolders pages pageSize fuel =
      ⟨((List.range (n + 1)).map (pageContribution pages)).flatten,
       (List.range (n + 1)).map (fun i => (i, pageSize))⟩ := by
  have := getAllTokenHoldersAux_char pages pageSize n fuel 0 [] []
    (by simpa using hcont) (by simpa using hstop) hfuel
  simpa [getAllTokenHolders] using this

/-! ### Arithmetic lemmas for the HHI bounds -/

theorem div_add_div_le (a b c : Nat) : a / c + b / c ≤ (a + b) / c := by
  rcases Nat.eq_zero_or_pos c with rfl | hc
  · simp
  · rw [Nat.le_div_iff_mul_le hc, Nat.add_mul]
    exact Nat.add_le_add (Nat.div_mul_le_self a c) (Nat.div_mul_le_self b c)

theorem sum_div_le (l : List Nat) (c : Nat) :
    (l.map (fun a => a / c)).sum ≤ l.sum / c := by
  induction l with
  | nil => simp
  | cons a l ih =>
    simp only [List.map_cons, List.sum_cons]
    calc a / c + (l.map (fun a => a / c)).sum
        ≤ a / c + l.sum / c := Nat.add_le_add_left ih _
      _ ≤ (a + l.sum) / c := div_add_div_le a l.sum c

theorem sum_sq_le_sq_sum (l : List Nat) :
    (l.map (fun a => a * a)).sum ≤ l.sum * l.sum := by
  induction l with
  | nil => simp
  | cons a l ih =>
    simp only [List.map_cons, List.sum_cons]
    have hexp : (a + l.sum) * (a + l.sum) =
        a * a + (a * l.sum + l.sum * a) + l.sum * l.sum := by ring
    omega

theorem countP_mul_le_sum (T : Nat) (l : List Nat) :
    l.countP (fun a => decide (a = T)) * T ≤ l.sum := by
  induction l with
  | nil => simp
  | cons a l ih =>
    by_cases ha : a = T
    · subst ha
      rw [List.countP_cons_of_pos _ _ (by simp), List.sum_cons, Nat.add_mul,
        Nat.one_mul]
      omega
    · rw [List.countP_cons_of_neg _ _ (by simp [ha]), List.sum_cons]
      omega

/-- Truncation before summation only loses mass: the accumulated HHI is at
most the truncated division of the accumulated numerator. -/
theorem hhi_sum_le (as : List Nat) (T : Nat) :
    (as.map (fun a => squaredTerm a T)).sum ≤
      ((as.map (fun a => a * a)).sum * 10000) / (T * T) := by
  have h1 : (as.map (fun a => squaredTerm a T)).sum =
      ((as.map (fun a => a * a * 10000)).map (fun x => x / (T * T))).sum := by
    rw [List.map_map]
    rfl
  rw [h1]
  calc ((as.map (fun a => a * a * 10000)).map (fun x => x / (T * T))).sum
      ≤ (as.map (fun a => a * a * 10000)).sum / (T * T) :=
        sum_div_le _ _
    _ = ((as.map (fun a => a * a)).sum * 10000) / (T * T) := by
        rw [List.sum_map_mul_right]

/-- The HHI of any amount list is at most `10000` when measured against its
own total. -/
theorem hhi_le_10000 (as : List Nat) (hT : 0 < as.sum) :
    (as.map (fun a => squaredTerm a as.sum)).sum ≤ 10000 := by
  have hTT : 0 < as.sum * as.sum := Nat.mul_pos hT hT
  calc (as.map (fun a => squaredTerm a as.sum)).sum
      ≤ ((as.map (fun a => a * a)).sum * 10000) / (as.sum * as.sum) :=
        hhi_sum_le as as.sum
    _ ≤ (as.sum * as.sum * 10000) / (as.sum * as.sum) :=
        Nat.div_le_div_right (Nat.mul_le_mul_right _ (sum_sq_le_sq_sum as))
    _ = 10000 := Nat.mul_div_cancel_left 10000 hTT

/-- If no single holder owns the whole supply, the HHI stays strictly below
`10000`. -/
theorem hhi_lt_10000 (as : List Nat) (hT : 0 < as.sum)
    (hno : ∀ a ∈ as, a ≠ as.sum) :
    (as.map (fun a => squaredTerm a as.sum)).sum < 10000 := by
  have hTT : 0 < as.sum * as.sum := Nat.mul_pos hT hT
  have hsq : (as.map (fun a => a * a)).sum ≤ (as.sum - 1) * as.sum := by
    calc (as.map (fun a => a * a)).sum
        ≤ (as.map (fun a => (as.sum - 1) * a)).sum := by
          apply List.sum_le_sum
          intro a ha
          have h1 : a ≤ as.sum := List.le_sum_of_mem ha
          have h2 : a ≠ as.sum := hno a ha
          exact Nat.mul_le_mul_right a (by omega)
      _ = (as.sum - 1) * (as.map (fun a => a)).sum := List.sum_map_mul_left ..
      _ = (as.sum - 1) * as.sum := by rw [List.map_id']
  have hlt : ((as.sum - 1) * as.sum * 10000) / (as.sum * as.sum) < 10000 := by
    rw [Nat.div_lt_iff_lt_mul hTT]
    have hmul : (as.sum - 1) * as.sum < as.sum * as.sum :=
      (Nat.mul_lt_mul_right hT).2 (by omega)
    calc (as.sum - 1) * as.sum * 10000 < as.sum * as.sum * 10000 :=
          (Nat.mul_lt_mul_right (by norm_num)).2 hmul
      _ = 10000 * (as.sum * as.sum) := Nat.mul_comm _ _
  calc (as.map (fun a => squaredTerm a as.sum)).sum
      ≤ ((as.map (fun a => a * a)).sum * 10000) / (as.sum * as.sum) :=
        hhi_sum_le as as.sum
    _ ≤ ((as.sum - 1) * as.sum * 10000) / (as.sum * as.sum) :=
        Nat.div_le_div_right (Nat.mul_le_mul_right _ hsq)
    _ < 10000 := hlt

/-- If one holder owns the whole (positive) supply, all other amounts are
zero and the HHI is exactly `10000`. -/
theorem hhi_eq_10000_of_mem (as : List Nat) (T : Nat) (hT : 0 < T)
    (hsum : as.sum = T) (hmem : T ∈ as) :
    (as.map (fun a => squaredTerm a T)).sum = 10000 := by
  obtain ⟨s, t, hdecomp⟩ := List.append_of_mem hmem
  subst hdecomp
  have hsum' : s.sum + (T + t.sum) = T := by
    simpa [List.sum_append] using hsum
  have hs0 : s.sum = 0 := by omega
  have ht0 : t.sum = 0 := by omega
  have hzeroTerm : ∀ (u : List Nat), u.sum = 0 →
      (u.map (fun a => squaredTerm a T)).sum = 0 := by
    intro u hu
    apply List.sum_eq_zero
    intro x hx
    obtain ⟨a, ha, rfl⟩ := List.mem_map.1 hx
    have ha0 : a = 0 := List.sum_eq_zero_iff.1 hu a ha
    simp [ha0, squaredTerm]
  have hfull : squaredTerm T T = 10000 := by
    unfold squaredTerm
    exact Nat.mul_div_cancel_left 10000 (Nat.mul_pos hT hT)
  rw [List.map_append, List.sum_append, List.map_cons, List.sum_cons,
    hzeroTerm s hs0, hzeroTerm t ht0, hfull]
  omega

/-! ### Stability of the descending sort -/


theorem filter_pct_orderedInsert (p : ℚ) (a : TopHolder) :
    ∀ t : List TopHolder,
      (List.orderedInsert pctGE a t).filter (fun x => decide (x.percentage = p)) =
        ((a :: t).filter (fun x => decide (x.percentage = p)))
  | [] => rfl
  | b :: t => by
    have ih := filter_pct_orderedInsert p a t
    by_cases hab : pctGE a b
    · simp [List.orderedInsert, hab]
    · simp only [List.orderedInsert, if_neg hab]
      by_cases hpb : b.percentage = p
      · by_cases hpa : a.percentage = p
        · exact absurd (show pctGE a b by unfold pctGE; rw [hpb, hpa]) hab
        · simp [List.filter_cons, hpb, hpa, ih]
      · simp [List.filter_cons, hpb, ih]

theorem filter_pct_sortByPctDesc (p : ℚ) (l : List TopHolder) :
    (sortByPctDesc l).filter (fun x => decide (x.percentage = p)) =
      l.filter (fun x => decide (x.percentage = p)) := by
  induction l with
  | nil => rfl
  | cons a l ih =>
    simp only [sortByPctDesc, List.insertionSort] at *
    rw [filter_pct_orderedInsert p a (List.insertionSort pctGE l)]
    simp [List.filter_cons, ih]

/-- All-zero amounts make the fold a no-op. -/
theorem totalSupplyFold_all_zero :
    ∀ l : List HolderRec, (∀ h ∈ l, parseBigInt h.amount = some 0) →
      ∀ s : Nat, totalSupplyFold s l = Except.ok s
  | [], _, s => rfl
  | h :: l, hall, s => by
    have h0 : parseBigInt h.amount = some 0 := hall h (List.mem_cons_self h l)
    simp only [totalSupplyFold, h0]
    exact totalSupplyFold_all_zero l (fun h' hm => hall h' (List.mem_cons_of_mem h hm)) s

/-- Every holder the fetch loop returns satisfies the page filter: its owner
is not excluded and its amount string is not the literal `'0'`. -/
theorem fetched_holders_filtered (pages : PageOracle) (pageSize fuel : Nat) :
    ∀ h ∈ (getAllTokenHolders pages pageSize fuel).holders,
      h.account ∉ EXCLUDED_ADDRESSES ∧ h.amount ≠ "0" := by
  intro h hm
  obtain ⟨p, v, hpg, hfp⟩ := mem_getAllTokenHolders hm
  obtain ⟨a, hav, hex, hz, rfl⟩ := mem_filterPage.1 hfp
  exact ⟨hex, hz⟩

/-! ## Claim theorems -/

/-- C1: whenever every fetched amount converts and the total supply is
positive, `calculateHHI` succeeds and its `hhi` is the arbitrary-precision
sum of `squaredTerm a T = a * a * 10000 / (T * T)` over ALL holders (the
count of which is `holderCount`, not only the displayed top 10), converted
to a plain integer only at the end. -/
theorem C1_hhi_is_sum_of_squaredTerms (holders : List HolderRec)
    (as : List Nat) (hp : parsedAmounts holders = some as)
    (hpos : 0 < as.sum) :
    ∃ r, calculateHHI holders = Except.ok r ∧
      r.hhi = (as.map (fun a => squaredTerm a as.sum)).sum ∧
      r.holderCount = holders.length :=
  ⟨_, calculateHHI_ok hp hpos, rfl, rfl⟩

/-- C1 witness: Scenario B — four holders of 25, total 100, each squared
term 625, hhi 2500. -/
theorem C1_witness :
    (∃ r, calculateHHI [⟨"X", "25"⟩, ⟨"Y", "25"⟩, ⟨"Z", "25"⟩, ⟨"W", "25"⟩] =
        Except.ok r ∧
      r.hhi = (([25, 25, 25, 25] : List Nat).map
        (fun a => squaredTerm a ([25, 25, 25, 25] : List Nat).sum)).sum ∧
      r.holderCount = 4) ∧
    squaredTerm 25 100 = 625 ∧
    (([25, 25, 25, 25] : List Nat).map
      (fun a => squaredTerm a ([25, 25, 25, 25] : List Nat).sum)).sum = 2500 :=
  ⟨C1_hhi_is_sum_of_squaredTerms
      [⟨"X", "25"⟩, ⟨"Y", "25"⟩, ⟨"Z", "25"⟩, ⟨"W", "25"⟩] [25, 25, 25, 25]
      (by decide) (by decide),
    by decide, by decide⟩

/-- C2: whenever every fetched amount converts and the total supply is
positive, `calculateHHI` succeeds, its `hhi` lies in `[0, 10000]` (being a
natural number), and `hhi = 10000` exactly when precisely one holder record
carries the entire supply. -/
theorem C2_hhi_range_and_extreme (holders : List HolderRec)
    (as : List Nat) (hp : parsedAmounts holders = some as)
    (hpos : 0 < as.sum) :
    ∃ r, calculateHHI holders = Except.ok r ∧ r.hhi ≤ 10000 ∧
      (r.hhi = 10000 ↔ as.countP (fun a => decide (a = as.sum)) = 1) := by
  refine ⟨_, calculateHHI_ok hp hpos, hhi_le_10000 as hpos, ?_, ?_⟩
  · intro h10
    have hge : 0 < as.countP (fun a => decide (a = as.sum)) := by
      rcases Nat.eq_zero_or_pos (as.countP (fun a => decide (a = as.sum))) with
        h0 | h
      · have hno : ∀ a ∈ as, a ≠ as.sum := by
          intro a ha
          have := List.countP_eq_zero.1 h0 a ha
          simpa using this
        exact absurd h10 (Nat.ne_of_lt (hhi_lt_10000 as hpos hno))
      · exact h
    have hle : as.countP (fun a => decide (a = as.sum)) ≤ 1 := by
      have h1 := countP_mul_le_sum as.sum as
      have h2 : as.countP (fun a => decide (a = as.sum)) * as.sum ≤ 1 * as.sum := by
        omega
      exact Nat.le_of_mul_le_mul_right (by omega) hpos
    omega
  · intro hc
    have hcp : 0 < as.countP (fun a => decide (a = as.sum)) := by omega
    obtain ⟨a, ha, hpa⟩ := List.countP_pos_iff.1 hcp
    have haT : a = as.sum := by simpa using hpa
    exact hhi_eq_10000_of_mem as as.sum hpos rfl (haT ▸ ha)

/-- C2 witness: Scenario A — a single holder of the whole supply reaches
exactly 10000. -/
theorem C2_witness :
    (∃ r, calculateHHI [⟨"X", "100"⟩] = Except.ok r ∧ r.hhi ≤ 10000 ∧
      (r.hhi = 10000 ↔
        ([100] : List Nat).countP
          (fun a => decide (a = ([100] : List Nat).sum)) = 1)) ∧
    ([100] : List Nat).countP (fun a => decide (a = ([100] : List Nat).sum)) = 1 :=
  ⟨C2_hhi_range_and_extreme [⟨"X", "100"⟩] [100] (by decide) (by decide),
    by decide⟩

/-- C3: `calculateHHI` returns the empty sentinel (and no failure) exactly
when the fetched holder list is empty or the computed total supply is zero;
in particular a fetch whose accounts all carry zero amounts ends in the
sentinel. -/
theorem C3_empty_sentinel_iff :
    (∀ holders : List HolderRec,
      calculateHHI holders = Except.ok emptyResult ↔
        holders = [] ∨ totalSupplyOf holders = Except.ok 0) ∧
    (∀ (pages : PageOracle) (pageSize fuel : Nat),
      (∀ p v, pages p = Except.ok v → ∀ a ∈ v, parseBigInt a.amount = some 0) →
      calculateHHI (getAllTokenHolders pages pageSize fuel).holders =
        Except.ok emptyResult) := by
  constructor
  · intro holders
    constructor
    · intro hok
      by_cases hlen : holders.length = 0
      · exact Or.inl (List.length_eq_zero.1 hlen)
      · refine Or.inr ?_
        cases hpa : parsedAmounts holders with
        | none =>
          obtain ⟨h', hm', hn', hf⟩ := totalSupplyFold_of_unparsed holders hpa
          have herr : calculateHHI holders =
              Except.error ("HHI calculation failed: " ++ convertFailMsg h'.amount) := by
            simp [calculateHHI, hlen, totalSupplyOf, hf 0]
          rw [herr] at hok
          cases hok
        | some as =>
          have htot : totalSupplyOf holders = Except.ok as.sum := by
            simpa [totalSupplyOf] using totalSupplyFold_of_parsed holders as hpa 0
          by_cases hz : as.sum = 0
          · rw [htot, hz]
          · exfalso
            have h2 := calculateHHI_ok hpa (Nat.pos_of_ne_zero hz)
            rw [hok] at h2
            have h3 := Except.ok.inj h2
            have hcount := congrArg HHIResult.holderCount h3
            simp only [emptyResult] at hcount
            exact hlen hcount.symm
    · rintro (rfl | htot)
      · rfl
      · by_cases hlen : holders.length = 0
        · simp [calculateHHI, hlen]
        · simp [calculateHHI, hlen, htot]
  · intro pages pageSize fuel hzero
    have hall : ∀ h ∈ (getAllTokenHolders pages pageSize fuel).holders,
        parseBigInt h.amount = some 0 := by
      intro h hm
      obtain ⟨p, v, hpg, hfp⟩ := mem_getAllTokenHolders hm
      obtain ⟨a, hav, _, _, rfl⟩ := mem_filterPage.1 hfp
      exact hzero p v hpg a hav
    by_cases hlen : (getAllTokenHolders pages pageSize fuel).holders.length = 0
    · simp [calculateHHI, hlen]
    · have htot : totalSupplyOf (getAllTokenHolders pages pageSize fuel).holders =
          Except.ok 0 :=
        totalSupplyFold_all_zero _ hall 0
      simp [calculateHHI, hlen, htot]

/-- A page oracle all of whose accounts carry the zero amount string. -/
def zeroAmountPages : PageOracle := fun _ =>
  Except.ok [{ owner := "Z", amount := "0" }]

/-- C3 witness: Scenario E — all fetched accounts have zero amount, so the
pipeline ends in the empty sentinel. -/
theorem C3_witness :
    calculateHHI (getAllTokenHolders zeroAmountPages 1000 2).holders =
      Except.ok emptyResult := by
  apply C3_empty_sentinel_iff.2 zeroAmountPages 1000 2
  intro p v hpv a ha
  have hpv' : Except.ok [({ owner := "Z", amount := "0" } : RawAccount)] =
      Except.ok v := hpv
  obtain rfl := Except.ok.inj hpv'
  rcases List.mem_singleton.1 ha with rfl
  decide

/-- C4: the reported percentage is exactly `round4` of the spec's formula:
the amount scaled by one million with truncated (BigInt) division by the
total, then divided by 10000 and rounded to 4 decimal places (the quotient
already has at most 4 decimals, so rounding is the identity on it). -/
theorem C4_percentage_round4 (a T : Nat) (_hT : 0 < T) :
    percentageOf a T = round4 (((a * 1000000 / T : Nat) : ℚ) / 10000) := by
  unfold percentageOf round4
  have hmul : (((a * 1000000 / T : Nat) : ℚ) / 10000) * 10000 =
      ((a * 1000000 / T : Nat) : ℚ) :=
    div_mul_cancel₀ _ (by norm_num)
  rw [hmul, round_natCast, Int.cast_natCast]

/-- C4 witness: the identity at a concrete holder (25 of 100). -/
theorem C4_witness :
    0 < 100 ∧
    percentageOf 25 100 =
      round4 (((25 * 1000000 / 100 : Nat) : ℚ) / 10000) :=
  ⟨by norm_num, C4_percentage_round4 25 100 (by norm_num)⟩


/-- C5: the fetch loop requests pages with increasing index and the fixed
page size; it stops after page `n` exactly when that page has zero raw
accounts or fewer post-filter records than the page size (every earlier
page having kept it going), returning all accumulated post-filter records
of the `n + 1` requested pages. -/
theorem C5_pagination_termination (pages : PageOracle) (pageSize n fuel : Nat)
    (hcont : ∀ k, k < n → continuesAt pages pageSize k)
    (hstop : ∀ v, pages n = Except.ok v →
      v.length = 0 ∨ (filterPage v).length < pageSize)
    (hfuel : n < fuel) :
    getAllTokenHolders pages pageSize fuel =
      ⟨((List.range (n + 1)).map (pageContribution pages)).flatten,
       (List.range (n + 1)).map (fun i => (i, pageSize))⟩ := by
  apply getAllTokenHolders_char pages pageSize n fuel hcont ?_ hfuel
  rintro ⟨v, hpg, hv, hfull⟩
  rcases hstop v hpg with h0 | hshort
  · exact hv h0
  · omega

/-- Scenario C oracle: a full first page of 1000 keepable accounts, then an
empty page. -/
def scenarioCPages : PageOracle := fun p =>
  if p = 0 then Except.ok (List.replicate 1000 { owner := "A", amount := "7" })
  else Except.ok []

/-- C5 witness: Scenario C — a full first page (1000 post-filter records)
followed by an empty page gives exactly 2 requests and all 1000 records. -/
theorem C5_witness :
    getAllTokenHolders scenarioCPages 1000 3 =
      ⟨List.replicate 1000 { account := "A", amount := "7" },
       [(0, 1000), (1, 1000)]⟩ ∧
    (List.replicate 1000 ({ account := "A", amount := "7" } : HolderRec)).length
      = 1000 := by
  have hfp : filterPage
      (List.replicate 1000 ({ owner := "A", amount := "7" } : RawAccount)) =
      List.replicate 1000 { account := "A", amount := "7" } := by
    rw [filterPage, List.filter_replicate_of_pos (by decide), List.map_replicate]
  have hne : ¬ (List.replicate 1000
      ({ owner := "A", amount := "7" } : RawAccount)).length = 0 := by
    rw [List.length_replicate]
    omega
  have hc0 : pageContribution scenarioCPages 0 =
      List.replicate 1000 { account := "A", amount := "7" } := by
    have h1 : scenarioCPages 0 = Except.ok
        (List.replicate 1000 ({ owner := "A", amount := "7" } : RawAccount)) := rfl
    simp only [pageContribution, h1, if_neg hne, hfp]
  have hc1 : pageContribution scenarioCPages 1 = [] := rfl
  constructor
  · have h := C5_pagination_termination scenarioCPages 1000 1 3
      (fun k hk => by
        have hk0 : k = 0 := by omega
        subst hk0
        refine ⟨List.replicate 1000 { owner := "A", amount := "7" }, rfl, hne, ?_⟩
        rw [hfp, List.length_replicate])
      (fun v hv => by
        have hv' : Except.ok ([] : List RawAccount) = Except.ok v := hv
        obtain rfl := Except.ok.inj hv'
        exact Or.inl rfl)
      (by norm_num)
    rw [h]
    have hr2 : List.range 2 = [0, 1] := rfl
    rw [hr2]
    simp only [List.map_cons, List.map_nil, List.flatten_cons, List.flatten_nil]
    rw [hc0, hc1]
    simp only [List.append_nil]
  · rw [List.length_replicate]

/-- C6: a transport or decode failure on page `n` (earlier pages full)
terminates pagination at once: the fetch returns exactly the holders
accumulated from pages `0..n-1`, the failing page contributes nothing, the
failing request is issued once (no retry), and no error escapes — the
result is an ordinary `FetchResult`. -/
theorem C6_fail_graceful (pages : PageOracle) (pageSize n fuel : Nat)
    (hcont : ∀ k, k < n → continuesAt pages pageSize k)
    (herr : pages n = Except.error ())
    (hfuel : n < fuel) :
    getAllTokenHolders pages pageSize fuel =
      ⟨((List.range n).map (pageContribution pages)).flatten,
       (List.range (n + 1)).map (fun i => (i, pageSize))⟩ := by
  have hstop : ¬ continuesAt pages pageSize n := by
    rintro ⟨v, hpg, -, -⟩
    rw [herr] at hpg
    cases hpg
  have h := getAllTokenHolders_char pages pageSize n fuel hcont hstop hfuel
  rw [h]
  congr 1
  rw [List.range_succ, List.map_append, List.flatten_append]
  simp [pageContribution, herr]

/-- Scenario D oracle (page size 2): one full page, then a failing page. -/
def scenarioDPages : PageOracle := fun p =>
  if p = 0 then Except.ok [{ owner := "A", amount := "7" },
                           { owner := "B", amount := "9" }]
  else Except.error ()

/-- C6 witness: Scenario D — the upstream call for the second page fails,
and the result holds exactly the first page's holders, with both requests
recorded and no error raised. -/
theorem C6_witness :
    getAllTokenHolders scenarioDPages 2 3 =
      ⟨[{ account := "A", amount := "7" }, { account := "B", amount := "9" }],
       [(0, 2), (1, 2)]⟩ := by
  have h := C6_fail_graceful scenarioDPages 2 1 3
    (fun k hk => by
      have hk0 : k = 0 := by omega
      subst hk0
      exact ⟨[{ owner := "A", amount := "7" }, { owner := "B", amount := "9" }],
        rfl, by decide, by decide⟩)
    rfl
    (by norm_num)
  rw [h]
  decide

/-- For a successful, non-sentinel computation the reported total supply is
the exact arbitrary-precision sum of the (converted) amounts of all holders
in the result. -/
theorem calculateHHI_nonempty_total (hs : List HolderRec) (r : HHIResult)
    (hok : calculateHHI hs = Except.ok r) (hne : r ≠ emptyResult) :
    ∃ as, parsedAmounts hs = some as ∧ 0 < as.sum ∧
      r.totalSupply = Nat.repr as.sum := by
  by_cases hlen : hs.length = 0
  · exfalso
    apply hne
    have hsent : calculateHHI hs = Except.ok emptyResult := by
      simp [calculateHHI, hlen]
    rw [hsent] at hok
    exact (Except.ok.inj hok).symm
  · cases hpa : parsedAmounts hs with
    | none =>
      exfalso
      obtain ⟨h', hm', hn', hf⟩ := totalSupplyFold_of_unparsed hs hpa
      have herr : calculateHHI hs =
          Except.error ("HHI calculation failed: " ++ convertFailMsg h'.amount) := by
        simp [calculateHHI, hlen, totalSupplyOf, hf 0]
      rw [herr] at hok
      cases hok
    | some as =>
      by_cases hz : as.sum = 0
      · exfalso
        apply hne
        have htot : totalSupplyOf hs = Except.ok 0 := by
          have := totalSupplyFold_of_parsed hs as hpa 0
          simpa [totalSupplyOf, hz] using this
        have hsent : calculateHHI hs = Except.ok emptyResult := by
          simp [calculateHHI, hlen, htot]
        rw [hsent] at hok
        exact (Except.ok.inj hok).symm
      · have hpos : 0 < as.sum := Nat.pos_of_ne_zero hz
        have h2 := calculateHHI_ok hpa hpos
        rw [hok] at h2
        have h3 := Except.ok.inj h2
        exact ⟨as, rfl, hpos, by rw [h3]⟩

/-- C7 (amended): every fetched holder has a non-excluded owner and an
amount string other than the literal `'0'`; a successful non-sentinel
result reports exactly the arbitrary-precision sum of all holder amounts as
`totalSupply`; and, provided the upstream amount strings are canonical
(value zero only as the string `'0'`), every holder amount is strictly
positive. (The unamended claim fails because the zero test is the string
comparison `amount !== '0'`, so a non-canonical `"00"` passes the filter
with value zero.) -/
theorem C7_amended_invariants (pages : PageOracle) (pageSize fuel : Nat) :
    (∀ h ∈ (getAllTokenHolders pages pageSize fuel).holders,
        h.account ∉ EXCLUDED_ADDRESSES ∧ h.amount ≠ "0") ∧
    (∀ r, calculateHHI (getAllTokenHolders pages pageSize fuel).holders =
        Except.ok r → r ≠ emptyResult →
      ∃ as, parsedAmounts (getAllTokenHolders pages pageSize fuel).holders =
          some as ∧ 0 < as.sum ∧ r.totalSupply = Nat.repr as.sum) ∧
    ((∀ p v, pages p = Except.ok v → ∀ a ∈ v, ∀ m,
        parseBigInt a.amount = some m → m = 0 → a.amount = "0") →
      ∀ h ∈ (getAllTokenHolders pages pageSize fuel).holders,
        ∀ m, parseBigInt h.amount = some m → 0 < m) := by
  refine ⟨fetched_holders_filtered pages pageSize fuel,
    fun r hok hne => calculateHHI_nonempty_total _ r hok hne, ?_⟩
  intro hcanon h hm m hpm
  obtain ⟨p, v, hpg, hfp⟩ := mem_getAllTokenHolders hm
  obtain ⟨a, hav, hex, hz, rfl⟩ := mem_filterPage.1 hfp
  rcases Nat.eq_zero_or_pos m with rfl | hmp
  · exact absurd (hcanon p v hpg a hav 0 hpm rfl) hz
  · exact hmp

/-- A one-page oracle with a single well-formed holder. -/
def smallFetchPages : PageOracle := fun p =>
  if p = 0 then Except.ok [{ owner := "A", amount := "7" }]
  else Except.ok []

/-- C7 witness: the amended invariants evaluated on a concrete one-holder
fetch with canonical amount strings. -/
theorem C7_witness :
    (("A" : String) ∉ EXCLUDED_ADDRESSES ∧ ("7" : String) ≠ "0") ∧
    (0 : Nat) < 7 := by
  have h := C7_amended_invariants smallFetchPages 1000 2
  refine ⟨h.1 ⟨"A", "7"⟩ (by decide), ?_⟩
  have hcanon : ∀ p v, smallFetchPages p = Except.ok v → ∀ a ∈ v, ∀ m,
      parseBigInt a.amount = some m → m = 0 → a.amount = "0" := by
    intro p v hpv a ha m hpm h0
    by_cases hp : p = 0
    · subst hp
      have hpv' : Except.ok [({ owner := "A", amount := "7" } : RawAccount)] =
          Except.ok v := hpv
      obtain rfl := Except.ok.inj hpv'
      rcases List.mem_singleton.1 ha with rfl
      have h7 : parseBigInt "7" = some 7 := by decide
      rw [h7] at hpm
      have hm7 : 7 = m := Option.some.inj hpm
      exact absurd h0 (by omega)
    · have hprw : smallFetchPages p = Except.ok ([] : List RawAccount) := by
        simp [smallFetchPages, hp]
      rw [hprw] at hpv
      obtain rfl := Except.ok.inj hpv
      cases ha
  exact h.2.2 hcanon ⟨"A", "7"⟩ (by decide) 7 (by decide)

/-- A one-page oracle containing a non-canonical zero amount string. -/
def paddedZeroPages : PageOracle := fun p =>
  if p = 0 then Except.ok [{ owner := "X", amount := "00" },
                           { owner := "Y", amount := "5" }]
  else Except.ok []

/-- C7 counterexample: the string filter `amount !== '0'` lets the
non-canonical string `"00"` through, so a holder of value zero appears in a
non-sentinel result, refuting the claim that every holder amount in a
non-sentinel result is strictly positive. -/
theorem C7_counterexample :
    (⟨"X", "00"⟩ : HolderRec) ∈
      (getAllTokenHolders paddedZeroPages 1000 2).holders ∧
    parseBigInt "00" = some 0 ∧
    ∃ r, calculateHHI (getAllTokenHolders paddedZeroPages 1000 2).holders =
        Except.ok r ∧ r ≠ emptyResult ∧ r.holderCount = 2 := by
  have hhold : (getAllTokenHolders paddedZeroPages 1000 2).holders =
      [⟨"X", "00"⟩, ⟨"Y", "5"⟩] := by decide
  refine ⟨by decide, by decide, ?_⟩
  rw [hhold]
  have hpa : parsedAmounts [(⟨"X", "00"⟩ : HolderRec), ⟨"Y", "5"⟩] =
      some [0, 5] := by decide
  have h := calculateHHI_ok hpa (by decide)
  refine ⟨_, h, ?_, rfl⟩
  intro heq
  have hcount := congrArg HHIResult.holderCount heq
  simp [emptyResult] at hcount


/-- C8: for a successful non-sentinel computation, `topHolders` is the
`min 10 holderCount`-prefix of a stable descending-by-percentage sort of
the holder sequence with percentages: a permutation of
`holdersWithPercentage`, pairwise descending under `pctGE`, in which
holders of equal percentage keep their original fetch order (the filter at
every percentage value is unchanged — there is no secondary key). -/
theorem C8_topHolders_sorted_stable (holders : List HolderRec) (as : List Nat)
    (hp : parsedAmounts holders = some as) (hpos : 0 < as.sum) :
    ∃ r, calculateHHI holders = Except.ok r ∧
      ∃ s, s.Perm (holdersWithPercentage holders as.sum) ∧
        List.Sorted pctGE s ∧
        (∀ p : ℚ, s.filter (fun x => decide (x.percentage = p)) =
          (holdersWithPercentage holders as.sum).filter
            (fun x => decide (x.percentage = p))) ∧
        r.topHolders = s.take 10 ∧
        r.topHolders.length = min 10 r.holderCount ∧
        r.holderCount = holders.length := by
  refine ⟨_, calculateHHI_ok hp hpos,
    sortByPctDesc (holdersWithPercentage holders as.sum),
    List.perm_insertionSort pctGE _,
    List.sorted_insertionSort pctGE _,
    fun p => filter_pct_sortByPctDesc p _,
    rfl, ?_, rfl⟩
  show (List.take 10 (sortByPctDesc (holdersWithPercentage holders as.sum))).length
      = min 10 holders.length
  rw [List.length_take]
  simp only [sortByPctDesc]
  rw [(List.perm_insertionSort pctGE (holdersWithPercentage holders as.sum)).length_eq]
  rw [holdersWithPercentage, List.length_map]

/-- C8 witness: Scenario B input — four equal holders; the sort is a stable
permutation and `topHolders` its 4-element prefix. -/
theorem C8_witness :
    ∃ r, calculateHHI [⟨"X", "25"⟩, ⟨"Y", "25"⟩, ⟨"Z", "25"⟩, ⟨"W", "25"⟩] =
        Except.ok r ∧
      ∃ s, s.Perm (holdersWithPercentage
            [⟨"X", "25"⟩, ⟨"Y", "25"⟩, ⟨"Z", "25"⟩, ⟨"W", "25"⟩]
            (([25, 25, 25, 25] : List Nat).sum)) ∧
        List.Sorted pctGE s ∧
        (∀ p : ℚ, s.filter (fun x => decide (x.percentage = p)) =
          (holdersWithPercentage
            [⟨"X", "25"⟩, ⟨"Y", "25"⟩, ⟨"Z", "25"⟩, ⟨"W", "25"⟩]
            (([25, 25, 25, 25] : List Nat).sum)).filter
              (fun x => decide (x.percentage = p))) ∧
        r.topHolders = s.take 10 ∧
        r.topHolders.length = min 10 r.holderCount ∧
        r.holderCount = 4 :=
  C8_topHolders_sorted_stable [⟨"X", "25"⟩, ⟨"Y", "25"⟩, ⟨"Z", "25"⟩, ⟨"W", "25"⟩]
    [25, 25, 25, 25] (by decide) (by decide)

/-- C9 (amended): the aggregator performs exclusion and zero-string
filtering on each fetched record, but does not deduplicate: membership in
the aggregated sequence only guarantees the per-record filter, and the same
owner address may occur in several records (see the counterexample). -/
theorem C9_amended_filter_only (pages : PageOracle) (pageSize fuel : Nat) :
    ∀ h ∈ (getAllTokenHolders pages pageSize fuel).holders,
      h.account ∉ EXCLUDED_ADDRESSES ∧ h.amount ≠ "0" :=
  fetched_holders_filtered pages pageSize fuel

/-- C9 witness: the filter facts at a concrete fetched holder. -/
theorem C9_witness :
    ("A" : String) ∉ EXCLUDED_ADDRESSES ∧ ("7" : String) ≠ "0" :=
  C9_amended_filter_only smallFetchPages 1000 2 ⟨"A", "7"⟩ (by decide)

/-- A one-page oracle whose two token accounts share one owner. -/
def dupOwnerPages : PageOracle := fun p =>
  if p = 0 then Except.ok [{ owner := "X", amount := "5" },
                           { owner := "X", amount := "7" }]
  else Except.ok []

/-- C9 counterexample: two distinct token accounts of the same owner both
survive aggregation, so the aggregated sequence is not deduplicated by
owner — the owner `X` appears twice. -/
theorem C9_counterexample :
    ((getAllTokenHolders dupOwnerPages 1000 2).holders.map
      (fun h => h.account)) = ["X", "X"] ∧
    ¬ ((getAllTokenHolders dupOwnerPages 1000 2).holders.map
      (fun h => h.account)).Nodup := by
  refine ⟨by decide, by decide⟩

/-- C10: a holder whose amount string does not convert makes `calculateHHI`
throw: the result is the descriptive failure
`HHI calculation failed: Cannot convert ... to a BigInt` for the first such
holder, never a success — in particular never the empty sentinel. -/
theorem C10_malformed_amount_fails (holders : List HolderRec) (h : HolderRec)
    (hm : h ∈ holders) (hn : parseBigInt h.amount = none) :
    ∃ h' ∈ holders, parseBigInt h'.amount = none ∧
      calculateHHI holders =
        Except.error ("HHI calculation failed: " ++ convertFailMsg h'.amount) ∧
      ∀ r, calculateHHI holders ≠ Except.ok r := by
  obtain ⟨h', hm', hn', herr⟩ := calculateHHI_error hm hn
  exact ⟨h', hm', hn', herr, fun r hok => by rw [herr] at hok; cases hok⟩

/-- C10 witness: the amount string `12.5` is not a `BigInt` numeral, and the
computation fails with the descriptive message. -/
theorem C10_witness :
    ∃ h' ∈ [(⟨"X", "12.5"⟩ : HolderRec)], parseBigInt h'.amount = none ∧
      calculateHHI [⟨"X", "12.5"⟩] =
        Except.error ("HHI calculation failed: " ++ convertFailMsg h'.amount) ∧
      ∀ r, calculateHHI [(⟨"X", "12.5"⟩ : HolderRec)] ≠ Except.ok r :=
  C10_malformed_amount_fails [⟨"X", "12.5"⟩] ⟨"X", "12.5"⟩ (by decide) (by decide)


end SolScore
